import Mathlib

/-!
Verification of the sol-sniffer balance monitor (src/Sniffler.py).

Shallow embedding conventions:
* The SQLite table `wallets` is a `List WalletRow`; each row carries the
  columns id, user_id, name, address, enabled (INTEGER 0/1, modelled as Nat)
  and last_lamports (nullable INTEGER, modelled as Option Nat).
* Balances are lamport counts (non-negative Python ints coming from a u64
  JSON-RPC field), modelled as Nat; balance deltas are Int.
* Database helper functions are translated statement by statement from the
  Python source; SQL UPDATE / DELETE act on every row matching their WHERE
  clause, hence List.map / List.filter.
* The async scan (check_balances_job / process_one) is embedded as a pure
  function of a per-row fetch oracle (Option Nat: none = the RPC call raised,
  some v = it returned v lamports) and a per-row delivery oracle
  (Bool: whether app.bot.send_message succeeded). Its observable behaviour is
  the updated table plus a trace of effects (persisted updates and
  notification attempts). Logger calls write only to the process log and are
  not part of the observable state, so they do not appear in the trace.
-/

set_option autoImplicit false

namespace Sniffler

/-- One row of the wallets table (src/Sniffler.py lines 77-87). -/
structure WalletRow where
  id : Nat
  user_id : Nat
  name : String
  address : String
  enabled : Nat
  last_lamports : Option Nat
deriving DecidableEq, Repr

/-- Predicate used by the WHERE clauses of toggle/delete:
`id = ? AND user_id = ?`. -/
def rowMatch (user_id wallet_id : Nat) (r : WalletRow) : Bool :=
  r.id == wallet_id && r.user_id == user_id

/-- db_add_wallet (lines 94-107): INSERT a new enabled row with NULL
last_lamports; the UNIQUE(user_id, address) constraint makes the INSERT raise
IntegrityError exactly when a row with the same (user_id, address) pair
already exists, in which case the function reports failure and commits
nothing. `next_id` stands for the AUTOINCREMENT id the fresh row receives. -/
def db_add_wallet (db : List WalletRow) (next_id user_id : Nat)
    (name address : String) : (Bool × String) × List WalletRow :=
  if db.any (fun r => r.user_id == user_id && r.address == address) then
    ((false, "⚠️ That wallet address is already saved for you."), db)
  else
    ((true, "✅ Wallet saved!"),
      db ++ [⟨next_id, user_id, name, address, 1, none⟩])

/-- db_toggle_wallet (lines 120-139): SELECT the row with the given id owned
by the given user; if absent return None; otherwise flip its enabled flag
(1 becomes 0, anything else becomes 1) with an UPDATE scoped by the same
WHERE clause, and return the new flag. -/
def db_toggle_wallet (db : List WalletRow) (user_id wallet_id : Nat) :
    Option Nat × List WalletRow :=
  match db.find? (rowMatch user_id wallet_id) with
  | none => (none, db)
  | some row =>
    let new_enabled := if row.enabled == 1 then 0 else 1
    (some new_enabled,
      db.map (fun r =>
        if rowMatch user_id wallet_id r then { r with enabled := new_enabled }
        else r))

/-- db_delete_wallet (lines 141-151): DELETE rows matching
`id = ? AND user_id = ?` and report whether the rowcount was positive. -/
def db_delete_wallet (db : List WalletRow) (user_id wallet_id : Nat) :
    Bool × List WalletRow :=
  (decide (0 < db.countP (rowMatch user_id wallet_id)),
    db.filter (fun r => !(rowMatch user_id wallet_id r)))

/-- db_get_enabled_wallets_all_users (lines 153-164): SELECT every row with
enabled = 1, across all users. -/
def db_get_enabled_wallets_all_users (db : List WalletRow) : List WalletRow :=
  db.filter (fun r => r.enabled == 1)

/-- db_update_last_lamports (lines 166-175): UPDATE last_lamports on every
row whose id matches (ids are the primary key, so in a well-formed table this
is at most one row). -/
def db_update_last_lamports (db : List WalletRow) (wallet_id lamports : Nat) :
    List WalletRow :=
  db.map (fun r =>
    if r.id == wallet_id then { r with last_lamports := some lamports } else r)

/-- Signal of the change detector, as named by the specification. -/
inductive Signal where
  | firstObservation
  | unchanged
  | changed (delta : Int)
deriving DecidableEq, Repr

/-- The comparison logic of process_one (lines 547-553), extracted as the
pure change detector: absent previous value gives firstObservation, a
different current value gives changed with delta = current - previous,
an equal value gives unchanged. -/
def detect (previous : Option Nat) (current : Nat) : Signal :=
  match previous with
  | none => .firstObservation
  | some last =>
    if current ≠ last then .changed ((current : Int) - (last : Int))
    else .unchanged

/-- Observable effect of one per-wallet task of the scan. persist records a
db_update_last_lamports call; notifyAttempt records a send_message call,
tagged with the wallet the message was built from, the addressee, the signed
lamport delta, the new balance and whether delivery succeeded. Message text
formatting (float rendering of SOL amounts) is not modelled. -/
inductive Effect where
  | persist (wallet_id lamports : Nat)
  | notifyAttempt (wallet_id user_id : Nat) (delta : Int) (current : Nat)
      (delivered : Bool)
deriving DecidableEq, Repr

/-- process_one (lines 539-574) for a single wallet row, given the outcome of
its rpc_get_balance_lamports call and of its send_message call. A raised
fetch (none) is logged and the task returns with no effect. On a first
observation the balance is persisted and nothing is sent. On a change the
balance is persisted and then one notification is attempted; a send failure
is only logged. On an unchanged balance nothing happens. -/
def process_one (row : WalletRow) (fetched : Option Nat) (deliverOk : Bool) :
    List Effect :=
  match fetched with
  | none => []
  | some current =>
    match row.last_lamports with
    | none => [.persist row.id current]
    | some last =>
      if current ≠ last then
        [.persist row.id current,
          .notifyAttempt row.id row.user_id ((current : Int) - (last : Int))
            current deliverOk]
      else []

/-- The effect trace of asyncio.gather over process_one for each enabled row
(line 576), linearised in row order; `i` is the index of the first row of
`rows` within the full enabled list, so that the oracles are indexed
consistently. -/
def scan_effects (fetch : Nat → Option Nat) (deliver : Nat → Bool) :
    Nat → List WalletRow → List Effect
  | _, [] => []
  | i, r :: rs =>
    process_one r (fetch i) (deliver i) ++ scan_effects fetch deliver (i + 1) rs

/-- Replay one effect against the wallets table: persisted updates go through
db_update_last_lamports, notification attempts do not touch the table. -/
def apply_effect (db : List WalletRow) : Effect → List WalletRow
  | .persist wallet_id lamports => db_update_last_lamports db wallet_id lamports
  | .notifyAttempt _ _ _ _ _ => db

/-- check_balances_job (lines 526-576): store the dashboard timestamp, load
the enabled rows, return at once if there are none, otherwise run process_one
for every row and gather. Returns the new last_check_iso value, the table
after all persisted updates, and the effect trace. The function returns no
statistics: failures are only logged. -/
def check_balances_job (db : List WalletRow) (fetch : Nat → Option Nat)
    (deliver : Nat → Bool) (now : String) :
    Option String × List WalletRow × List Effect :=
  let rows := db_get_enabled_wallets_all_users db
  if rows.isEmpty then (some now, db, [])
  else
    let effs := scan_effects fetch deliver 0 rows
    (some now, effs.foldl apply_effect db, effs)

/-- The stored last_lamports of the first row carrying a given wallet id
(none when no such row exists). -/
def lastOf (db : List WalletRow) (wallet_id : Nat) : Option (Option Nat) :=
  (db.find? (fun r => r.id == wallet_id)).map (fun r => r.last_lamports)

/-- Whether an effect is a persisted update for the given wallet id. -/
def isPersistFor (wallet_id : Nat) : Effect → Bool
  | .persist w _ => w == wallet_id
  | _ => false

/-- Whether an effect is a notification attempt built from the given wallet. -/
def isNotifyFor (wallet_id : Nat) : Effect → Bool
  | .notifyAttempt w _ _ _ _ => w == wallet_id
  | _ => false

/-- Erase the delivery outcome recorded on notification attempts, keeping
everything else; two traces equal up to stripDelivered did the same fetching,
persisting and message building and differ only in send_message outcomes. -/
def stripDelivered : Effect → Effect
  | .persist w v => .persist w v
  | .notifyAttempt w u d c _ => .notifyAttempt w u d c true

/-! ### Process configuration surface (lines 31-34, 190, 537)

The environment is a partial map from variable names to string values. The
module reads BOT_TOKEN, SOLANA_RPC_URL, DB_PATH and CHECK_INTERVAL_SECONDS
from it at import time. The aiohttp fetch timeout and the semaphore size are
the integer literals 12 and 8 in the source; they are written below as
functions of the environment so that their insensitivity to it is a provable
statement. -/

def Env : Type := String → Option String

/-- os.getenv with a default (the pattern of lines 31-34). -/
def getenvD (env : Env) (key default : String) : String :=
  (env key).getD default

/-- Decimal parsing modelling the int() call of line 34: a value for a
non-empty all-digit string, none when int() would raise. Signs and
surrounding whitespace, which int() also accepts, are not modelled; no
sensible interval value uses them. -/
def parseNat? : List Char → Option Nat
  | [] => none
  | cs =>
    if cs.all (fun c => c.isDigit) then
      some (cs.foldl (fun n c => n * 10 + (c.toNat - Char.toNat (Char.ofNat 48))) 0)
    else none

/-- CHECK_INTERVAL_SECONDS (line 34): int(os.getenv("CHECK_INTERVAL_SECONDS",
"10")); none models the int() call raising on a non-numeric value. -/
def CHECK_INTERVAL_SECONDS (env : Env) : Option Nat :=
  parseNat? (getenvD env "CHECK_INTERVAL_SECONDS" "10").data

/-- The total timeout passed to aiohttp on every balance fetch (line 190):
the literal 12, independent of the environment. -/
def fetch_timeout_total (_env : Env) : Nat := 12

/-- The semaphore capacity of check_balances_job (line 537): the literal 8,
independent of the environment. -/
def semaphore_limit (_env : Env) : Nat := 8

/-! ### Admission gate model (lines 537-545)

Every per-wallet task of a scan runs its whole body inside
`async with sem`, with sem = asyncio.Semaphore(8) created for that scan.
A task is idle until the event loop lets it acquire the semaphore, holds it
for the duration of its fetch-compare-persist-notify body, and releases it
when the body exits, normally or by exception. The scan is modelled as a
transition system over the list of task phases; the outcome flag on the
finishing step records whether the body ended in a fetch success or a raised
exception, and both variants release the gate. -/

inductive TaskPhase where
  | pending
  | holding
  | finished (fetchSucceeded : Bool)
deriving DecidableEq, Repr

/-- Number of tasks currently inside the semaphore. -/
def holders (ts : List TaskPhase) : Nat :=
  ts.countP (fun p => p == TaskPhase.holding)

/-- One event-loop step of the scan: a pending task may enter the gate only
while fewer than 8 tasks hold it; a holding task leaves the gate when its
body finishes, whatever the outcome of its fetch. -/
inductive SemStep : List TaskPhase → List TaskPhase → Prop
  | acquire (ts : List TaskPhase) (i : Nat) (hi : i < ts.length)
      (hp : ts.get ⟨i, hi⟩ = .pending) (hcap : holders ts < 8) :
      SemStep ts (ts.set i .holding)
  | release (ts : List TaskPhase) (i : Nat) (hi : i < ts.length)
      (hp : ts.get ⟨i, hi⟩ = .holding) (ok : Bool) :
      SemStep ts (ts.set i (.finished ok))

/-- States of the scan reachable from n not-yet-started tasks. -/
def SemReachable (n : Nat) (ts : List TaskPhase) : Prop :=
  Relation.ReflTransGen SemStep (List.replicate n .pending) ts

/-- The wallet an effect was produced for. -/
def effectWallet : Effect → Nat
  | .persist w _ => w
  | .notifyAttempt w _ _ _ _ => w

/-- Whether an effect is a notification attempt at all. -/
def isNotify : Effect → Bool
  | .notifyAttempt _ _ _ _ _ => true
  | _ => false

/-- Number of persisted updates for a given wallet in a trace. -/
def persistCount (effs : List Effect) (wallet_id : Nat) : Nat :=
  effs.countP (isPersistFor wallet_id)

/-- Number of notification attempts built from a given wallet in a trace. -/
def notifyCount (effs : List Effect) (wallet_id : Nat) : Nat :=
  effs.countP (isNotifyFor wallet_id)

/-- Every column of a row except last_lamports; the scan must keep this
projection of the table intact. -/
def frameOf (r : WalletRow) : Nat × Nat × String × String × Nat :=
  (r.id, r.user_id, r.name, r.address, r.enabled)

/-- Every column of a row except enabled; toggling must keep this projection
of the table intact. -/
def ownerView (r : WalletRow) : Nat × Nat × String × String × Option Nat :=
  (r.id, r.user_id, r.name, r.address, r.last_lamports)

/-- The UNIQUE(user_id, address) table invariant. -/
def uniquePairs (db : List WalletRow) : Prop :=
  db.Pairwise (fun r s => ¬(r.user_id = s.user_id ∧ r.address = s.address))

/-! ## Basic lemmas -/

/-- The two branches of check_balances_job collapse to one closed form: the
empty-rows early return produces the same triple because an empty row list
has an empty effect trace. -/
theorem check_balances_job_eq (db : List WalletRow) (fetch : Nat → Option Nat)
    (deliver : Nat → Bool) (now : String) :
    check_balances_job db fetch deliver now =
      (some now,
        (scan_effects fetch deliver 0 (db_get_enabled_wallets_all_users db)).foldl
          apply_effect db,
        scan_effects fetch deliver 0 (db_get_enabled_wallets_all_users db)) := by
  by_cases h : (db_get_enabled_wallets_all_users db).isEmpty
  · have h' := List.isEmpty_iff.mp h
    simp [check_balances_job, h, h', scan_effects]
  · simp [check_balances_job, h]

/-- Effects produced by one per-wallet task all carry the id of that wallet. -/
theorem effectWallet_of_mem_process_one {row : WalletRow} {fetched : Option Nat}
    {ok : Bool} {e : Effect} (h : e ∈ process_one row fetched ok) :
    effectWallet e = row.id := by
  cases fetched with
  | none => simp [process_one] at h
  | some current =>
    cases hl : row.last_lamports with
    | none =>
      simp [process_one, hl] at h
      simp [h, effectWallet]
    | some last =>
      by_cases hc : current = last
      · simp [process_one, hl, hc] at h
      · simp [process_one, hl, hc] at h
        rcases h with h | h <;> simp [h, effectWallet]

/-- updating last_lamports keeps the frame projection of the table. -/
theorem frameOf_apply_effect (db : List WalletRow) (e : Effect) :
    (apply_effect db e).map frameOf = db.map frameOf := by
  cases e with
  | notifyAttempt w u d c ok => rfl
  | persist w v =>
    show (db.map _).map frameOf = db.map frameOf
    rw [List.map_map]
    refine List.map_congr_left (fun r _ => ?_)
    by_cases h : r.id = w <;> simp [h, frameOf]

/-- Filtering after a map that fixes every element the filter keeps and never
changes the value of the filter test is the same as filtering alone. -/
theorem filter_map_of_fix {g : WalletRow → WalletRow} {p : WalletRow → Bool}
    (hg : ∀ r, p r = true → g r = r) (hp : ∀ r, p (g r) = p r) :
    ∀ l : List WalletRow, (l.map g).filter p = l.filter p := by
  intro l
  induction l with
  | nil => rfl
  | cons a l ih =>
    rw [List.map_cons, List.filter_cons, List.filter_cons, hp a]
    cases hpa : p a with
    | true => rw [hg a hpa, ih]
    | false => exact ih

/-! ## C1 -/

/-- C1: for every previous (optional) and current balance, the change
detector yields changed(current - previous) iff a previous value is present
and differs from current, firstObservation iff none is present, and unchanged
otherwise; a notification attempt appears in the per-wallet trace iff the
signal is changed, and the current value is persisted iff the signal is
firstObservation or changed. -/
theorem C1_detect_and_notify :
    ∀ (row : WalletRow) (current : Nat) (ok : Bool),
      (detect row.last_lamports current = .firstObservation ↔
        row.last_lamports = none) ∧
      (detect row.last_lamports current = .unchanged ↔
        row.last_lamports = some current) ∧
      (∀ d : Int, detect row.last_lamports current = .changed d ↔
        ∃ p, row.last_lamports = some p ∧ p ≠ current ∧
          d = (current : Int) - (p : Int)) ∧
      ((∃ e ∈ process_one row (some current) ok, isNotify e = true) ↔
        (∃ d, detect row.last_lamports current = .changed d)) ∧
      (Effect.persist row.id current ∈ process_one row (some current) ok ↔
        detect row.last_lamports current ≠ .unchanged) := by
  intro row current ok
  cases hl : row.last_lamports with
  | none => simp [detect, process_one, hl, isNotify]
  | some last =>
    by_cases hc : current = last
    · subst hc
      simp [detect, process_one, hl, isNotify]
    · simp only [detect, process_one, hl, if_pos hc]
      constructor
      · simp [hc]
      constructor
      · constructor
        · intro h
          exact absurd h (by simp)
        · intro h
          injection h with h
          exact absurd h.symm hc
      constructor
      · intro d
        constructor
        · rintro h
          exact ⟨last, rfl, fun h2 => hc h2.symm, by injection h with h; omega⟩
        · rintro ⟨p, hp, _, hd⟩
          injection hp with hp
          subst hp; subst hd; rfl
      constructor
      · simp [hc, isNotify]
      · simp [hc]

/-! ## C7 -/

/-- C7: a scan neither creates nor deletes rows, and leaves every column of
every row other than last_lamports exactly as it was: the frame projection
(id, user_id, name, address, enabled) of the table is unchanged and so is the
number of rows. -/
theorem C7_scan_frame :
    ∀ (db : List WalletRow) (fetch : Nat → Option Nat) (deliver : Nat → Bool)
      (now : String),
      ((check_balances_job db fetch deliver now).2.1).map frameOf =
          db.map frameOf ∧
        ((check_balances_job db fetch deliver now).2.1).length = db.length := by
  intro db fetch deliver now
  rw [check_balances_job_eq]
  have key : ∀ (effs : List Effect) (d : List WalletRow),
      (effs.foldl apply_effect d).map frameOf = d.map frameOf := by
    intro effs
    induction effs with
    | nil => intro d; rfl
    | cons e es ih =>
      intro d
      rw [List.foldl_cons, ih (apply_effect d e), frameOf_apply_effect]
  refine ⟨key _ db, ?_⟩
  have h := congrArg List.length (key (scan_effects fetch deliver 0
    (db_get_enabled_wallets_all_users db)) db)
  simpa using h

/-! ## C8 -/

/-- C8: (user_id, address) is unique across the wallets table: inserting a
pair that already exists fails with the already-saved message and leaves the
table unchanged, inserting a fresh pair succeeds and appends the new enabled
row with no last balance, and a successful insert preserves the pairwise
uniqueness invariant. -/
theorem C8_unique_owner_address :
    ∀ (db : List WalletRow) (next_id user_id : Nat) (name address : String),
      ((∃ r ∈ db, r.user_id = user_id ∧ r.address = address) →
        db_add_wallet db next_id user_id name address =
          ((false, "⚠️ That wallet address is already saved for you."), db)) ∧
      ((∀ r ∈ db, ¬(r.user_id = user_id ∧ r.address = address)) →
        db_add_wallet db next_id user_id name address =
          ((true, "✅ Wallet saved!"),
            db ++ [⟨next_id, user_id, name, address, 1, none⟩])) ∧
      (uniquePairs db →
        uniquePairs (db_add_wallet db next_id user_id name address).2) := by
  intro db next_id user_id name address
  have guard : db.any (fun r => r.user_id == user_id && r.address == address) =
      true ↔ ∃ r ∈ db, r.user_id = user_id ∧ r.address = address := by
    simp [List.any_eq_true]
  by_cases h : db.any (fun r => r.user_id == user_id && r.address == address)
  · refine ⟨fun _ => by simp [db_add_wallet, h], fun hall => ?_, fun hu => ?_⟩
    · obtain ⟨r, hr, h1, h2⟩ := guard.mp h
      exact absurd ⟨h1, h2⟩ (hall r hr)
    · simpa [db_add_wallet, h] using hu
  · have hnone : ∀ r ∈ db, ¬(r.user_id = user_id ∧ r.address = address) := by
      intro r hr hcontra
      exact h (guard.mpr ⟨r, hr, hcontra⟩)
    refine ⟨fun hex => ?_, fun _ => by simp [db_add_wallet, h], fun hu => ?_⟩
    · obtain ⟨r, hr, h1, h2⟩ := hex
      exact absurd ⟨h1, h2⟩ (hnone r hr)
    · have h' : db.any (fun r => r.user_id == user_id && r.address == address)
          = false := by
        simpa using h
      simp only [db_add_wallet, h', Bool.false_eq_true, if_false]
      unfold uniquePairs
      rw [List.pairwise_append]
      refine ⟨hu, List.pairwise_singleton _ _, ?_⟩
      intro r hr s hs
      simp only [List.mem_singleton] at hs
      subst hs
      exact hnone r hr

/-- Closed witness for C8: with one wallet (user 7, address Addr1) saved,
adding (7, Addr1) again fails and changes nothing, while adding (7, Addr2)
succeeds and keeps the uniqueness invariant. -/
theorem C8_unique_owner_address_witness :
    db_add_wallet [⟨1, 7, "main", "Addr1", 1, none⟩] 2 7 "dup" "Addr1" =
        ((false, "⚠️ That wallet address is already saved for you."),
          [⟨1, 7, "main", "Addr1", 1, none⟩]) ∧
      db_add_wallet [⟨1, 7, "main", "Addr1", 1, none⟩] 2 7 "second" "Addr2" =
        ((true, "✅ Wallet saved!"),
          [⟨1, 7, "main", "Addr1", 1, none⟩, ⟨2, 7, "second", "Addr2", 1, none⟩]) ∧
      uniquePairs
        (db_add_wallet [⟨1, 7, "main", "Addr1", 1, none⟩] 2 7 "second" "Addr2").2 := by
  have hfresh : ∀ r ∈ [(⟨1, 7, "main", "Addr1", 1, none⟩ : WalletRow)],
      ¬(r.user_id = 7 ∧ r.address = "Addr2") := by
    intro r hr hcontra
    simp only [List.mem_singleton] at hr
    subst hr
    exact absurd hcontra.2 (by decide)
  refine ⟨(C8_unique_owner_address _ 2 7 "dup" "Addr1").1
      ⟨⟨1, 7, "main", "Addr1", 1, none⟩, by simp, rfl, rfl⟩,
    (C8_unique_owner_address _ 2 7 "second" "Addr2").2.1 hfresh,
    (C8_unique_owner_address _ 2 7 "second" "Addr2").2.2
      (List.pairwise_singleton _ _)⟩

/-! ## C10 -/

/-- C10: toggle and delete are owner-scoped. When no row has both the given
id and the given owner, toggle returns none and delete returns false and both
leave the table exactly as it was; in every case toggle changes at most the
enabled flag of matching rows and leaves non-matching positions untouched,
and both operations leave the wallets of every other user unchanged; delete
removes exactly the matching rows. -/
theorem C10_owner_scoped_toggle_delete :
    ∀ (db : List WalletRow) (user_id wallet_id : Nat),
      ((∀ r ∈ db, rowMatch user_id wallet_id r = false) →
        db_toggle_wallet db user_id wallet_id = (none, db) ∧
          db_delete_wallet db user_id wallet_id = (false, db)) ∧
      ((db_toggle_wallet db user_id wallet_id).2.map ownerView =
        db.map ownerView) ∧
      (∀ i, ∀ hi : i < db.length,
        rowMatch user_id wallet_id (db.get ⟨i, hi⟩) = false →
        (db_toggle_wallet db user_id wallet_id).2[i]? = db[i]?) ∧
      ((db_toggle_wallet db user_id wallet_id).2.filter
          (fun r => !(r.user_id == user_id)) =
        db.filter (fun r => !(r.user_id == user_id))) ∧
      ((db_delete_wallet db user_id wallet_id).2.filter
          (fun r => !(r.user_id == user_id)) =
        db.filter (fun r => !(r.user_id == user_id))) ∧
      (∀ r : WalletRow, r ∈ (db_delete_wallet db user_id wallet_id).2 ↔
        r ∈ db ∧ rowMatch user_id wallet_id r = false) := by
  intro db user_id wallet_id
  constructor
  · intro hall
    have hfind : db.find? (rowMatch user_id wallet_id) = none := by
      rw [List.find?_eq_none]
      intro r hr
      simp [hall r hr]
    have hcount : db.countP (rowMatch user_id wallet_id) = 0 := by
      rw [List.countP_eq_zero]
      intro r hr
      simp [hall r hr]
    refine ⟨by simp [db_toggle_wallet, hfind], ?_⟩
    have hkeep : db.filter (fun r => !(rowMatch user_id wallet_id r)) = db := by
      rw [List.filter_eq_self]
      intro r hr
      simp [hall r hr]
    simp [db_delete_wallet, hcount, hkeep]
  refine ⟨?_, ?_, ?_, ?_, ?_⟩
  · cases hfind : db.find? (rowMatch user_id wallet_id) with
    | none => simp [db_toggle_wallet, hfind]
    | some row =>
      simp only [db_toggle_wallet, hfind]
      rw [List.map_map]
      refine List.map_congr_left (fun r _ => ?_)
      by_cases h : rowMatch user_id wallet_id r <;> simp [h, ownerView]
  · intro i hi hmiss
    cases hfind : db.find? (rowMatch user_id wallet_id) with
    | none => simp [db_toggle_wallet, hfind]
    | some row =>
      simp only [db_toggle_wallet, hfind, List.getElem?_map,
        List.getElem?_eq_getElem hi]
      have : db.get ⟨i, hi⟩ = db[i] := rfl
      rw [this] at hmiss
      simp [hmiss]
  · cases hfind : db.find? (rowMatch user_id wallet_id) with
    | none => simp [db_toggle_wallet, hfind]
    | some row =>
      simp only [db_toggle_wallet, hfind]
      refine filter_map_of_fix (fun r hr => ?_) (fun r => ?_) db
      · have hm : rowMatch user_id wallet_id r = false := by
          simp only [Bool.not_eq_true', beq_eq_false_iff_ne, ne_eq] at hr
          simp [rowMatch, hr]
        simp [hm]
      · by_cases hm : rowMatch user_id wallet_id r <;> simp [hm]
  · rw [db_delete_wallet]
    simp only [List.filter_filter]
    refine List.filter_congr (fun r _ => ?_)
    by_cases hu : r.user_id == user_id
    · simp [hu]
    · have hu' : r.user_id ≠ user_id := by simpa using hu
      have hm : rowMatch user_id wallet_id r = false := by
        simp [rowMatch, hu']
      simp [hu, hm]
  · intro r
    simp [db_delete_wallet, List.mem_filter]

/-! ## C6 -/

/-- A scan in which every fetch raises produces no effects at all. -/
theorem scan_effects_none (deliver : Nat → Bool) :
    ∀ (i : Nat) (rows : List WalletRow),
      scan_effects (fun _ => none) deliver i rows = [] := by
  intro i rows
  induction rows generalizing i with
  | nil => rfl
  | cons r rs ih => simp [scan_effects, process_one, ih]

/-- C6 counterexample: the scan reports no failure statistics. A scan of one
enabled account whose fetch times out is observationally identical — same
returned timestamp, same table, same effect trace — to a scan whose fetch
succeeds with the unchanged stored balance, so no output of the scan carries
a fetchFailures count (the failure is only written to the process log). -/
theorem C6_counterexample_no_failure_counter :
    check_balances_job [⟨1, 9, "Y", "AddrY", 1, some 1000000000⟩]
        (fun _ => none) (fun _ => true) "2026-10-12 00:00:00" =
      check_balances_job [⟨1, 9, "Y", "AddrY", 1, some 1000000000⟩]
        (fun _ => some 1000000000) (fun _ => true) "2026-10-12 00:00:00" := by
  rfl

/-- C6 amended: check_balances_job returns no aggregate statistics; its whole
observable outcome is the refreshed last-scan timestamp, the updated table
and the notification attempts. In a scan where every fetch fails the table is
untouched and the trace is empty, and only the timestamp shows the scan
happened; nothing counts the failures. -/
theorem C6_amended_no_stats :
    ∀ (db : List WalletRow) (deliver : Nat → Bool) (now : String),
      check_balances_job db (fun _ => none) deliver now = (some now, db, []) := by
  intro db deliver now
  rw [check_balances_job_eq, scan_effects_none]
  rfl

/-! ## C2 infrastructure -/

/-- A task never records a persisted update for another wallet. -/
theorem process_one_persistCount_other {wid : Nat} {row : WalletRow}
    {fetched : Option Nat} {ok : Bool} (h : wid ≠ row.id) :
    (process_one row fetched ok).countP (isPersistFor wid) = 0 := by
  rw [List.countP_eq_zero]
  intro e he hp
  have hw := effectWallet_of_mem_process_one he
  cases e with
  | persist w v =>
    simp only [isPersistFor, beq_iff_eq] at hp
    simp only [effectWallet] at hw
    omega
  | notifyAttempt w u d c ok2 => simp [isPersistFor] at hp

/-- A task never records a notification attempt for another wallet. -/
theorem process_one_notifyCount_other {wid : Nat} {row : WalletRow}
    {fetched : Option Nat} {ok : Bool} (h : wid ≠ row.id) :
    (process_one row fetched ok).countP (isNotifyFor wid) = 0 := by
  rw [List.countP_eq_zero]
  intro e he hp
  have hw := effectWallet_of_mem_process_one he
  cases e with
  | persist w v => simp [isNotifyFor] at hp
  | notifyAttempt w u d c ok2 =>
    simp only [isNotifyFor, beq_iff_eq] at hp
    simp only [effectWallet] at hw
    omega

/-- Filtering a task trace for the notifications of another wallet yields
nothing. -/
theorem process_one_filter_other {wid : Nat} {row : WalletRow}
    {fetched : Option Nat} {ok : Bool} (h : wid ≠ row.id) :
    (process_one row fetched ok).filter (isNotifyFor wid) = [] := by
  rw [List.filter_eq_nil_iff]
  intro e he hp
  have hw := effectWallet_of_mem_process_one he
  cases e with
  | persist w v => simp [isNotifyFor] at hp
  | notifyAttempt w u d c ok2 =>
    simp only [isNotifyFor, beq_iff_eq] at hp
    simp only [effectWallet] at hw
    omega

/-- A scan over rows that do not carry a given wallet id records no persisted
update and no notification attempt for it. -/
theorem scan_counts_zero {fetch : Nat → Option Nat} {deliver : Nat → Bool}
    {wid : Nat} :
    ∀ (rows : List WalletRow) (i : Nat), (∀ r ∈ rows, r.id ≠ wid) →
      (scan_effects fetch deliver i rows).countP (isPersistFor wid) = 0 ∧
        (scan_effects fetch deliver i rows).countP (isNotifyFor wid) = 0 ∧
        (scan_effects fetch deliver i rows).filter (isNotifyFor wid) = [] := by
  intro rows
  induction rows with
  | nil => exact fun i _ => ⟨rfl, rfl, rfl⟩
  | cons r rs ih =>
    intro i h
    have hr : wid ≠ r.id := fun he => (h r (List.mem_cons_self r rs)) he.symm
    have hrs := ih (i + 1) (fun s hs => h s (List.mem_cons_of_mem r hs))
    rw [scan_effects]
    refine ⟨?_, ?_, ?_⟩
    · rw [List.countP_append, process_one_persistCount_other hr, hrs.1]
    · rw [List.countP_append, process_one_notifyCount_other hr, hrs.2.1]
    · rw [List.filter_append, process_one_filter_other hr, hrs.2.2, List.nil_append]

/-- A scan is unchanged when the oracles agree on every index it uses. -/
theorem scan_effects_congr {f f' : Nat → Option Nat} {d d' : Nat → Bool} :
    ∀ (rows : List WalletRow) (i : Nat),
      (∀ k, i ≤ k → k < i + rows.length → f k = f' k ∧ d k = d' k) →
      scan_effects f d i rows = scan_effects f' d' i rows := by
  intro rows
  induction rows with
  | nil => intro i _; rfl
  | cons r rs ih =>
    intro i h
    have h0 := h i (Nat.le_refl i) (by simp)
    have hrec := ih (i + 1) (fun k hk1 hk2 => by
      refine h k (by omega) ?_
      simp only [List.length_cons]
      omega)
    rw [scan_effects, scan_effects, h0.1, h0.2, hrec]

/-- The scan trace decomposes around any single row: the effects of the rows
before it, its own task trace at its own oracle index, and the effects of the
rows after it. -/
theorem scan_effects_split {f : Nat → Option Nat} {d : Nat → Bool} :
    ∀ (rows : List WalletRow) (j : Nat) (hj : j < rows.length) (i : Nat),
      scan_effects f d i rows =
        scan_effects f d i (rows.take j) ++
          (process_one (rows.get ⟨j, hj⟩) (f (i + j)) (d (i + j)) ++
            scan_effects f d (i + j + 1) (rows.drop (j + 1))) := by
  intro rows
  induction rows with
  | nil => intro j hj; exact absurd hj (by simp)
  | cons r rs ih =>
    intro j hj i
    cases j with
    | zero =>
      simp [scan_effects, List.get]
    | succ n =>
      have hn : n < rs.length := by simpa using hj
      have e1 : i + (n + 1) = i + 1 + n := by omega
      calc scan_effects f d i (r :: rs)
          = process_one r (f i) (d i) ++ scan_effects f d (i + 1) rs := rfl
        _ = process_one r (f i) (d i) ++
              (scan_effects f d (i + 1) (rs.take n) ++
                (process_one (rs.get ⟨n, hn⟩) (f (i + 1 + n)) (d (i + 1 + n)) ++
                  scan_effects f d (i + 1 + n + 1) (rs.drop (n + 1)))) := by
            rw [ih n hn (i + 1)]
        _ = _ := by
            rw [List.take_succ_cons, List.drop_succ_cons, e1,
              List.get_cons_succ]
            show _ = (process_one r (f i) (d i) ++
              scan_effects f d (i + 1) (rs.take n)) ++ _
            rw [List.append_assoc]

/-- The row found by id after an update is the found row before it, with the
update applied when its id matches. -/
theorem find?_update (db : List WalletRow) (wid' v wid : Nat) :
    (db_update_last_lamports db wid' v).find? (fun r => r.id == wid) =
      (db.find? (fun r => r.id == wid)).map
        (fun r =>
          if r.id == wid' then { r with last_lamports := some v } else r) := by
  rw [db_update_last_lamports, List.find?_map]
  have hpred : ((fun r : WalletRow => r.id == wid) ∘
      (fun r =>
        if r.id == wid' then { r with last_lamports := some v } else r)) =
      fun r : WalletRow => r.id == wid := by
    funext r
    by_cases h : r.id = wid' <;> simp [Function.comp, h]
  rw [hpred]

/-- Updating one wallet leaves the stored balance of every other wallet. -/
theorem lastOf_update_other {db : List WalletRow} {wid wid' v : Nat}
    (h : wid ≠ wid') :
    lastOf (db_update_last_lamports db wid' v) wid = lastOf db wid := by
  rw [lastOf, find?_update, lastOf, Option.map_map]
  cases hf : db.find? (fun r => r.id == wid) with
  | none => rfl
  | some r =>
    have hr : r.id = wid := by
      have h2 := List.find?_some hf
      simpa using h2
    have hne : ¬r.id = wid' := by omega
    simp [Function.comp, hne]

/-- Updating a wallet stores the new value whenever a row with that id
exists, and does nothing otherwise. -/
theorem lastOf_update_self (db : List WalletRow) (wid v : Nat) :
    lastOf (db_update_last_lamports db wid v) wid =
      (lastOf db wid).map (fun _ => some v) := by
  rw [lastOf, find?_update, lastOf, Option.map_map, Option.map_map]
  cases hf : db.find? (fun r => r.id == wid) with
  | none => rfl
  | some r =>
    have hr : r.id = wid := by
      have h2 := List.find?_some hf
      simpa using h2
    simp [Function.comp, hr]

/-- Replaying a trace with no persisted update for a wallet leaves its stored
balance. -/
theorem lastOf_foldl_zero {wid : Nat} :
    ∀ (effs : List Effect) (db : List WalletRow),
      effs.countP (isPersistFor wid) = 0 →
      lastOf (effs.foldl apply_effect db) wid = lastOf db wid := by
  intro effs
  induction effs with
  | nil => exact fun db _ => rfl
  | cons e es ih =>
    intro db h
    rw [List.countP_cons] at h
    have he : isPersistFor wid e = false := by
      by_cases hb : isPersistFor wid e = true
      · rw [if_pos hb] at h; omega
      · simpa using hb
    have hes : es.countP (isPersistFor wid) = 0 := by
      rw [he] at h
      simpa using h
    rw [List.foldl_cons, ih (apply_effect db e) hes]
    cases e with
    | persist w v =>
      have hw : wid ≠ w := by
        simp only [isPersistFor, beq_eq_false_iff_ne, ne_eq] at he
        omega
      exact lastOf_update_other hw
    | notifyAttempt w u d c ok => rfl

/-- Replaying one trace on two tables agreeing at a wallet keeps them
agreeing there. -/
theorem lastOf_foldl_congr {wid : Nat} :
    ∀ (effs : List Effect) (db db' : List WalletRow),
      lastOf db wid = lastOf db' wid →
      lastOf (effs.foldl apply_effect db) wid =
        lastOf (effs.foldl apply_effect db') wid := by
  intro effs
  induction effs with
  | nil => exact fun db db' h => h
  | cons e es ih =>
    intro db db' h
    rw [List.foldl_cons, List.foldl_cons]
    refine ih _ _ ?_
    cases e with
    | notifyAttempt w u dd c ok => exact h
    | persist w v =>
      by_cases hw : wid = w
      · subst hw
        show lastOf (db_update_last_lamports db wid v) wid =
          lastOf (db_update_last_lamports db' wid v) wid
        rw [lastOf_update_self, lastOf_update_self, h]
      · show lastOf (db_update_last_lamports db w v) wid =
          lastOf (db_update_last_lamports db' w v) wid
        rw [lastOf_update_other hw, lastOf_update_other hw, h]

/-- Enabled rows keep the id uniqueness of the whole table. -/
theorem nodup_enabled_ids {db : List WalletRow}
    (h : (db.map (fun r => r.id)).Nodup) :
    ((db_get_enabled_wallets_all_users db).map (fun r => r.id)).Nodup :=
  List.Nodup.sublist (List.Sublist.map _ (List.filter_sublist db)) h

/-- With unique ids, the rows before and after a given position never carry
its id. -/
theorem pivot_ids {rows : List WalletRow}
    (h : (rows.map (fun r => r.id)).Nodup) (j : Nat) (hj : j < rows.length) :
    (∀ r ∈ rows.take j, r.id ≠ (rows.get ⟨j, hj⟩).id) ∧
      (∀ r ∈ rows.drop (j + 1), r.id ≠ (rows.get ⟨j, hj⟩).id) := by
  have hdecomp : rows = rows.take j ++ rows.get ⟨j, hj⟩ :: rows.drop (j + 1) := by
    conv_lhs => rw [← List.take_append_drop j rows]
    rw [List.drop_eq_getElem_cons hj]
    rfl
  have h2 : ((rows.take j ++
      rows.get ⟨j, hj⟩ :: rows.drop (j + 1)).map (fun r => r.id)).Nodup := by
    rw [← hdecomp]; exact h
  rw [List.map_append, List.map_cons, List.nodup_append] at h2
  obtain ⟨_, h2c, hdisj⟩ := h2
  rw [List.nodup_cons] at h2c
  constructor
  · intro r hr he
    exact hdisj (List.mem_map_of_mem _ hr)
      (by rw [he]; exact List.mem_cons_self _ _)
  · intro r hr he
    exact h2c.1 (he ▸ List.mem_map_of_mem (fun r => r.id) hr)

/-- With unique ids, rows at distinct positions have distinct ids. -/
theorem ids_get_ne {rows : List WalletRow}
    (h : (rows.map (fun r => r.id)).Nodup) {i j : Nat}
    (hi : i < rows.length) (hj : j < rows.length) (hne : i ≠ j) :
    (rows.get ⟨i, hi⟩).id ≠ (rows.get ⟨j, hj⟩).id := by
  intro he
  apply hne
  have hi' : i < (rows.map (fun r => r.id)).length := by simpa
  have hj' : j < (rows.map (fun r => r.id)).length := by simpa
  have hmap : (rows.map (fun r => r.id)).get ⟨i, hi'⟩ =
      (rows.map (fun r => r.id)).get ⟨j, hj'⟩ := by
    simp only [List.get_eq_getElem, List.getElem_map]
    exact he
  have := (@List.Nodup.get_inj_iff _ _ h ⟨i, hi'⟩ ⟨j, hj'⟩).mp hmap
  exact congrArg Fin.val this

/-- With unique ids, finding by the id of a member returns that member. -/
theorem find?_id_of_mem {db : List WalletRow}
    (h : (db.map (fun r => r.id)).Nodup) {r : WalletRow} (hr : r ∈ db) :
    db.find? (fun s => s.id == r.id) = some r := by
  induction db with
  | nil => cases hr
  | cons a db ih =>
    rw [List.map_cons, List.nodup_cons] at h
    rcases List.mem_cons.mp hr with rfl | hr2
    · exact List.find?_cons_of_pos _ (by simp)
    · have hne : a.id ≠ r.id := by
        intro he
        exact h.1 (he ▸ List.mem_map_of_mem (fun s => s.id) hr2)
      rw [List.find?_cons_of_neg _ (by simp [hne]), ih h.2 hr2]

/-- A task with a successful fetch signalling a change records exactly the
persisted update followed by the notification attempt. -/
theorem process_one_changed {row : WalletRow} {cur : Nat} {δ : Int} {ok : Bool}
    (h : detect row.last_lamports cur = .changed δ) :
    process_one row (some cur) ok =
      [.persist row.id cur,
        .notifyAttempt row.id row.user_id δ cur ok] := by
  cases hl : row.last_lamports with
  | none => simp [detect, hl] at h
  | some last =>
    by_cases hc : cur = last
    · subst hc
      simp [detect, hl] at h
    · simp only [detect, hl, if_pos hc] at h
      injection h with h
      simp [process_one, hl, hc, h]

/-- C2: a fetch failure is account-local. With unique row ids, if the fetch
of the enabled row at position i raises, then after the scan that row's
stored balance is exactly what it was before, and the scan records no
persisted update and no notification attempt for it; moreover every other
enabled row keeps the same final stored balance and notification effects as
under any fetch oracle agreeing outside position i, and a row at position
j ≠ i whose fetch succeeds with a changed balance still gets exactly one
notification attempt, exactly one persisted update, and its new balance
stored. -/
theorem C2_fetch_failure_isolated :
    ∀ (db : List WalletRow) (f f' : Nat → Option Nat) (d : Nat → Bool)
      (now : String) (i : Nat),
      (db.map (fun r => r.id)).Nodup →
      ∀ hi : i < (db_get_enabled_wallets_all_users db).length,
      f i = none →
      (∀ j, j ≠ i → f' j = f j) →
      (lastOf (check_balances_job db f d now).2.1
            ((db_get_enabled_wallets_all_users db).get ⟨i, hi⟩).id =
          lastOf db ((db_get_enabled_wallets_all_users db).get ⟨i, hi⟩).id) ∧
        persistCount (check_balances_job db f d now).2.2
          ((db_get_enabled_wallets_all_users db).get ⟨i, hi⟩).id = 0 ∧
        notifyCount (check_balances_job db f d now).2.2
          ((db_get_enabled_wallets_all_users db).get ⟨i, hi⟩).id = 0 ∧
        (∀ j, ∀ hj : j < (db_get_enabled_wallets_all_users db).length, j ≠ i →
          lastOf (check_balances_job db f' d now).2.1
              ((db_get_enabled_wallets_all_users db).get ⟨j, hj⟩).id =
            lastOf (check_balances_job db f d now).2.1
              ((db_get_enabled_wallets_all_users db).get ⟨j, hj⟩).id ∧
          (check_balances_job db f' d now).2.2.filter
              (isNotifyFor ((db_get_enabled_wallets_all_users db).get
                ⟨j, hj⟩).id) =
            (check_balances_job db f d now).2.2.filter
              (isNotifyFor ((db_get_enabled_wallets_all_users db).get
                ⟨j, hj⟩).id)) ∧
        (∀ j, ∀ hj : j < (db_get_enabled_wallets_all_users db).length, j ≠ i →
          ∀ (cur : Nat) (δ : Int), f j = some cur →
          detect ((db_get_enabled_wallets_all_users db).get
            ⟨j, hj⟩).last_lamports cur = .changed δ →
          notifyCount (check_balances_job db f d now).2.2
              ((db_get_enabled_wallets_all_users db).get ⟨j, hj⟩).id = 1 ∧
            persistCount (check_balances_job db f d now).2.2
              ((db_get_enabled_wallets_all_users db).get ⟨j, hj⟩).id = 1 ∧
            lastOf (check_balances_job db f d now).2.1
                ((db_get_enabled_wallets_all_users db).get ⟨j, hj⟩).id =
              some (some cur)) := by
  intro db f f' d now i hnodup hi hfail hagree
  simp only [check_balances_job_eq, persistCount, notifyCount]
  set rows := db_get_enabled_wallets_all_users db with hrows
  have hnodupR : (rows.map (fun r => r.id)).Nodup := nodup_enabled_ids hnodup
  have hpivotI := pivot_ids hnodupR i hi
  have hmid : process_one (rows.get ⟨i, hi⟩) (f (0 + i)) (d (0 + i)) = [] := by
    rw [Nat.zero_add, hfail]
    rfl
  have heffs : scan_effects f d 0 rows =
      scan_effects f d 0 (rows.take i) ++
        ([] ++ scan_effects f d (0 + i + 1) (rows.drop (i + 1))) := by
    rw [@scan_effects_split f d rows i hi 0, hmid]
  have hPA : (scan_effects f d 0 rows).countP
      (isPersistFor (rows.get ⟨i, hi⟩).id) = 0 := by
    rw [heffs, List.countP_append, List.countP_append,
      (@scan_counts_zero f d _ (rows.take i) 0 hpivotI.1).1,
      (@scan_counts_zero f d _ (rows.drop (i + 1)) (0 + i + 1) hpivotI.2).1]
    rfl
  have hNA : (scan_effects f d 0 rows).countP
      (isNotifyFor (rows.get ⟨i, hi⟩).id) = 0 := by
    rw [heffs, List.countP_append, List.countP_append,
      (@scan_counts_zero f d _ (rows.take i) 0 hpivotI.1).2.1,
      (@scan_counts_zero f d _ (rows.drop (i + 1)) (0 + i + 1) hpivotI.2).2.1]
    rfl
  refine ⟨lastOf_foldl_zero _ db hPA, hPA, hNA, ?_, ?_⟩
  · -- independence of every other row from the oracle value at i
    intro j hj hne
    have hBneA : (rows.get ⟨j, hj⟩).id ≠ (rows.get ⟨i, hi⟩).id :=
      ids_get_ne hnodupR hj hi hne
    have hlen_take : (rows.take i).length = i := by
      rw [List.length_take]
      omega
    have hpre_eq : scan_effects f' d 0 (rows.take i) =
        scan_effects f d 0 (rows.take i) := by
      refine scan_effects_congr _ 0 ?_
      intro k hk0 hkl
      rw [Nat.zero_add, hlen_take] at hkl
      exact ⟨hagree k (by omega), rfl⟩
    have hpost_eq : scan_effects f' d (0 + i + 1) (rows.drop (i + 1)) =
        scan_effects f d (0 + i + 1) (rows.drop (i + 1)) := by
      refine scan_effects_congr _ _ ?_
      intro k hk0 hkl
      exact ⟨hagree k (by omega), rfl⟩
    have heffs' : scan_effects f' d 0 rows =
        scan_effects f d 0 (rows.take i) ++
          (process_one (rows.get ⟨i, hi⟩) (f' (0 + i)) (d (0 + i)) ++
            scan_effects f d (0 + i + 1) (rows.drop (i + 1))) := by
      rw [@scan_effects_split f' d rows i hi 0, hpre_eq, hpost_eq]
    have hmidP : (process_one (rows.get ⟨i, hi⟩) (f' (0 + i))
        (d (0 + i))).countP (isPersistFor (rows.get ⟨j, hj⟩).id) = 0 :=
      process_one_persistCount_other hBneA
    constructor
    · rw [heffs, heffs', List.foldl_append, List.foldl_append,
        List.foldl_append, List.foldl_append]
      refine lastOf_foldl_congr _ _ _ ?_
      rw [lastOf_foldl_zero _ _ hmidP]
      rfl
    · rw [heffs, heffs', List.filter_append, List.filter_append,
        List.filter_append, List.filter_append,
        process_one_filter_other hBneA]
      rfl
  · -- a changed row elsewhere still yields exactly one of each
    intro j hj hne cur δ hjfetch hdet
    have hpivotJ := pivot_ids hnodupR j hj
    have hmidJ : process_one (rows.get ⟨j, hj⟩) (f (0 + j)) (d (0 + j)) =
        [.persist (rows.get ⟨j, hj⟩).id cur,
          .notifyAttempt (rows.get ⟨j, hj⟩).id (rows.get ⟨j, hj⟩).user_id δ cur
            (d (0 + j))] := by
      rw [Nat.zero_add, hjfetch]
      exact process_one_changed hdet
    have heffsJ : scan_effects f d 0 rows =
        scan_effects f d 0 (rows.take j) ++
          ([.persist (rows.get ⟨j, hj⟩).id cur,
            .notifyAttempt (rows.get ⟨j, hj⟩).id (rows.get ⟨j, hj⟩).user_id δ
              cur (d (0 + j))] ++
            scan_effects f d (0 + j + 1) (rows.drop (j + 1))) := by
      rw [@scan_effects_split f d rows j hj 0, hmidJ]
    have hBmem : rows.get ⟨j, hj⟩ ∈ db := by
      have hm : rows.get ⟨j, hj⟩ ∈ rows := List.get_mem rows j hj
      exact (List.mem_filter.mp hm).1
    have hfindB : db.find? (fun s => s.id == (rows.get ⟨j, hj⟩).id) =
        some (rows.get ⟨j, hj⟩) := find?_id_of_mem hnodup hBmem
    have hlastB : lastOf db (rows.get ⟨j, hj⟩).id =
        some (rows.get ⟨j, hj⟩).last_lamports := by
      rw [lastOf, hfindB]
      rfl
    refine ⟨?_, ?_, ?_⟩
    · rw [heffsJ, List.countP_append, List.countP_append,
        (@scan_counts_zero f d _ (rows.take j) 0 hpivotJ.1).2.1,
        (@scan_counts_zero f d _ (rows.drop (j + 1)) (0 + j + 1)
          hpivotJ.2).2.1]
      simp [isNotifyFor]
    · rw [heffsJ, List.countP_append, List.countP_append,
        (@scan_counts_zero f d _ (rows.take j) 0 hpivotJ.1).1,
        (@scan_counts_zero f d _ (rows.drop (j + 1)) (0 + j + 1)
          hpivotJ.2).1]
      simp [isPersistFor]
    · rw [heffsJ, List.foldl_append, List.foldl_append,
        lastOf_foldl_zero _ _
          (@scan_counts_zero f d _ (rows.drop (j + 1)) (0 + j + 1)
            hpivotJ.2).1]
      simp only [List.foldl_cons, List.foldl_nil, apply_effect]
      rw [lastOf_update_self,
        lastOf_foldl_zero _ _ (@scan_counts_zero f d _ (rows.take j) 0
          hpivotJ.1).1, hlastB]
      rfl

/-- Closed witness for C2: with wallet 1 (user 7, stored 5) whose fetch
raises and wallet 2 (user 8, stored 5) fetched as 9, the scan leaves wallet 1
at 5 with no effects for it, and gives wallet 2 exactly one persisted update,
exactly one notification attempt, and stored balance 9. -/
theorem C2_fetch_failure_isolated_witness :
    lastOf (check_balances_job
          [⟨1, 7, "A", "AA", 1, some 5⟩, ⟨2, 8, "B", "BB", 1, some 5⟩]
          (fun k => if k = 0 then none else some 9) (fun _ => true) "t").2.1
        1 = some (some 5) ∧
      persistCount (check_balances_job
          [⟨1, 7, "A", "AA", 1, some 5⟩, ⟨2, 8, "B", "BB", 1, some 5⟩]
          (fun k => if k = 0 then none else some 9) (fun _ => true) "t").2.2
        1 = 0 ∧
      notifyCount (check_balances_job
          [⟨1, 7, "A", "AA", 1, some 5⟩, ⟨2, 8, "B", "BB", 1, some 5⟩]
          (fun k => if k = 0 then none else some 9) (fun _ => true) "t").2.2
        1 = 0 ∧
      notifyCount (check_balances_job
          [⟨1, 7, "A", "AA", 1, some 5⟩, ⟨2, 8, "B", "BB", 1, some 5⟩]
          (fun k => if k = 0 then none else some 9) (fun _ => true) "t").2.2
        2 = 1 ∧
      persistCount (check_balances_job
          [⟨1, 7, "A", "AA", 1, some 5⟩, ⟨2, 8, "B", "BB", 1, some 5⟩]
          (fun k => if k = 0 then none else some 9) (fun _ => true) "t").2.2
        2 = 1 ∧
      lastOf (check_balances_job
          [⟨1, 7, "A", "AA", 1, some 5⟩, ⟨2, 8, "B", "BB", 1, some 5⟩]
          (fun k => if k = 0 then none else some 9) (fun _ => true) "t").2.1
        2 = some (some 9) := by
  have h := C2_fetch_failure_isolated
    [⟨1, 7, "A", "AA", 1, some 5⟩, ⟨2, 8, "B", "BB", 1, some 5⟩]
    (fun k => if k = 0 then none else some 9)
    (fun k => if k = 0 then none else some 9) (fun _ => true) "t" 0
    (by decide) (by decide) rfl (fun j hj => rfl)
  have h5 := h.2.2.2.2 1 (by decide) (by decide) 9 4 rfl (by decide)
  have h1 : lastOf
      [⟨1, 7, "A", "AA", 1, some 5⟩, ⟨2, 8, "B", "BB", 1, some 5⟩] 1 =
      some (some 5) := by decide
  exact ⟨h.1.trans h1, h.2.1, h.2.2.1, h5.1, h5.2.1, h5.2.2⟩

/-! ## C3 -/

/-- The trace of one task for equal fetch outcomes is identical up to the
recorded delivery flag. -/
theorem process_one_strip (row : WalletRow) (fetched : Option Nat)
    (ok ok' : Bool) :
    (process_one row fetched ok).map stripDelivered =
      (process_one row fetched ok').map stripDelivered := by
  cases fetched with
  | none => rfl
  | some current =>
    cases hl : row.last_lamports with
    | none => simp [process_one, hl]
    | some last =>
      by_cases hc : current = last <;> simp [process_one, hl, hc, stripDelivered]

/-- Replaying an effect on the table ignores the recorded delivery flag. -/
theorem apply_effect_strip (db : List WalletRow) (e : Effect) :
    apply_effect db (stripDelivered e) = apply_effect db e := by
  cases e <;> rfl

/-- Two traces equal up to delivery flags replay to the same table. -/
theorem foldl_apply_effect_strip :
    ∀ (effs effs' : List Effect) (db : List WalletRow),
      effs.map stripDelivered = effs'.map stripDelivered →
      effs.foldl apply_effect db = effs'.foldl apply_effect db := by
  intro effs
  induction effs with
  | nil =>
    intro effs' db h
    rw [List.map_nil] at h
    rw [List.map_eq_nil_iff.mp h.symm]
  | cons e es ih =>
    intro effs' db h
    cases effs' with
    | nil => simp at h
    | cons e' es' =>
      simp only [List.map_cons, List.cons.injEq] at h
      have he : apply_effect db e = apply_effect db e' := by
        rw [← apply_effect_strip db e, ← apply_effect_strip db e', h.1]
      rw [List.foldl_cons, List.foldl_cons, he, ih es' _ h.2]

/-- The whole scan trace for two delivery oracles is identical up to the
recorded delivery flags. -/
theorem scan_effects_strip (fetch : Nat → Option Nat)
    (deliver deliver' : Nat → Bool) :
    ∀ (rows : List WalletRow) (i : Nat),
      (scan_effects fetch deliver i rows).map stripDelivered =
        (scan_effects fetch deliver' i rows).map stripDelivered := by
  intro rows
  induction rows with
  | nil => intro i; rfl
  | cons r rs ih =>
    intro i
    rw [scan_effects, scan_effects, List.map_append, List.map_append,
      ih (i + 1), process_one_strip r (fetch i) (deliver i) (deliver' i)]

/-- C3: on a successful fetch whose signal is firstObservation or changed the
persisted update is the first effect of the task, before any notification
attempt; the task attempts at most one notification (no retry); and delivery
outcomes change nothing but the recorded flags: the table produced by a scan
and its trace up to delivery flags are identical for any two delivery
oracles, so a failed send rolls nothing back and stops no other account. -/
theorem C3_persist_before_notify :
    (∀ (row : WalletRow) (current : Nat) (ok : Bool),
      detect row.last_lamports current ≠ .unchanged →
      (process_one row (some current) ok).head? =
        some (.persist row.id current)) ∧
    (∀ (row : WalletRow) (fetched : Option Nat) (ok : Bool),
      (process_one row fetched ok).countP isNotify ≤ 1) ∧
    (∀ (db : List WalletRow) (fetch : Nat → Option Nat)
      (deliver deliver' : Nat → Bool) (now : String),
      (check_balances_job db fetch deliver now).2.1 =
          (check_balances_job db fetch deliver' now).2.1 ∧
        (check_balances_job db fetch deliver now).2.2.map stripDelivered =
          (check_balances_job db fetch deliver' now).2.2.map stripDelivered) := by
  refine ⟨?_, ?_, ?_⟩
  · intro row current ok hsig
    cases hl : row.last_lamports with
    | none => simp [process_one, hl]
    | some last =>
      by_cases hc : current = last
      · subst hc
        simp [detect, hl] at hsig
      · simp [process_one, hl, hc]
  · intro row fetched ok
    cases fetched with
    | none => simp [process_one]
    | some current =>
      cases hl : row.last_lamports with
      | none => simp [process_one, hl, isNotify]
      | some last =>
        by_cases hc : current = last <;>
          simp [process_one, hl, hc, isNotify]
  · intro db fetch deliver deliver' now
    rw [check_balances_job_eq, check_balances_job_eq]
    have hstrip := scan_effects_strip fetch deliver deliver'
      (db_get_enabled_wallets_all_users db) 0
    exact ⟨foldl_apply_effect_strip _ _ db hstrip, hstrip⟩

/-- Closed witness for C3: a wallet whose stored balance 5 is fetched as 9
persists first (the head of its trace is the update to 9) whether or not the
send succeeds, attempts exactly at most one notification, and a scan over it
yields the same table for an always-failing and an always-succeeding
delivery oracle. -/
theorem C3_persist_before_notify_witness :
    (process_one ⟨1, 7, "w", "A", 1, some 5⟩ (some 9) false).head? =
        some (.persist 1 9) ∧
      (process_one ⟨1, 7, "w", "A", 1, some 5⟩ (some 9) false).countP isNotify
        ≤ 1 ∧
      (check_balances_job [⟨1, 7, "w", "A", 1, some 5⟩] (fun _ => some 9)
            (fun _ => false) "t").2.1 =
        (check_balances_job [⟨1, 7, "w", "A", 1, some 5⟩] (fun _ => some 9)
            (fun _ => true) "t").2.1 :=
  ⟨C3_persist_before_notify.1 ⟨1, 7, "w", "A", 1, some 5⟩ 9 false (by decide),
    C3_persist_before_notify.2.1 ⟨1, 7, "w", "A", 1, some 5⟩ (some 9) false,
    (C3_persist_before_notify.2.2 [⟨1, 7, "w", "A", 1, some 5⟩]
      (fun _ => some 9) (fun _ => false) (fun _ => true) "t").1⟩

/-! ## C5 -/

/-- Setting one position changes a countP by the difference of the indicator
at the old and the new value. -/
theorem countP_phase_set (p : TaskPhase → Bool) :
    ∀ (ts : List TaskPhase) (i : Nat) (hi : i < ts.length) (v : TaskPhase),
      (ts.set i v).countP p + (if p (ts.get ⟨i, hi⟩) then 1 else 0) =
        ts.countP p + (if p v then 1 else 0) := by
  intro ts
  induction ts with
  | nil =>
    intro i hi
    exact absurd hi (by simp)
  | cons a ts ih =>
    intro i hi v
    cases i with
    | zero =>
      simp only [List.set_cons_zero, List.countP_cons, List.get]
      omega
    | succ n =>
      have hn : n < ts.length := by simpa using hi
      simp only [List.set_cons_succ, List.countP_cons, List.get]
      have := ih n hn v
      omega

/-- C5: in every state of a scan reachable from any number of not-yet-started
tasks, at most 8 tasks are inside the admission gate, and a holding task can
always leave through the release step whatever the outcome of its fetch,
decrementing the holder count — the gate is released unconditionally, also on
failure. -/
theorem C5_concurrency_bound :
    (∀ (n : Nat) (ts : List TaskPhase), SemReachable n ts → holders ts ≤ 8) ∧
      (∀ (ts : List TaskPhase) (i : Nat) (hi : i < ts.length) (ok : Bool),
        ts.get ⟨i, hi⟩ = .holding →
          SemStep ts (ts.set i (.finished ok)) ∧
            holders (ts.set i (.finished ok)) + 1 = holders ts) := by
  constructor
  · intro n ts h
    induction h with
    | refl =>
      simp [holders, List.countP_replicate]
    | tail _ hstep ih =>
      cases hstep with
      | acquire i hi hp hcap =>
        have hset := countP_phase_set (fun p => p == TaskPhase.holding) _ i hi
          .holding
        rw [hp] at hset
        simp only [holders] at *
        simp at hset
        omega
      | release i hi hp ok =>
        have hset := countP_phase_set (fun p => p == TaskPhase.holding) _ i hi
          (.finished ok)
        rw [hp] at hset
        simp only [holders] at *
        simp at hset
        omega
  · intro ts i hi ok hp
    refine ⟨SemStep.release ts i hi hp ok, ?_⟩
    have hset := countP_phase_set (fun p => p == TaskPhase.holding) ts i hi
      (.finished ok)
    rw [hp] at hset
    simp only [holders]
    simp at hset
    omega

/-- Closed witness for C5: the initial state of a scan over 10 tasks is
reachable and within the bound, and a task holding the gate releases it on a
failed fetch, leaving zero holders. -/
theorem C5_concurrency_bound_witness :
    holders (List.replicate 10 TaskPhase.pending) ≤ 8 ∧
      SemStep [TaskPhase.holding] ([TaskPhase.holding].set 0 (.finished false)) ∧
      holders ([TaskPhase.holding].set 0 (.finished false)) + 1 =
        holders [TaskPhase.holding] :=
  ⟨C5_concurrency_bound.1 10 _ Relation.ReflTransGen.refl,
    (C5_concurrency_bound.2 [TaskPhase.holding] 0 (by decide) false rfl).1,
    (C5_concurrency_bound.2 [TaskPhase.holding] 0 (by decide) false rfl).2⟩

/-! ## C9 -/

/-- C9 counterexample: in an environment that assigns the value 999 to every
variable, the scan interval becomes 999 seconds (it is read from the
environment with default 10), but the per-fetch timeout stays 12 and the
semaphore capacity stays 8: the latter two are integer literals in the
source, not read from any configuration surface. -/
theorem C9_counterexample_hardcoded_limits :
    CHECK_INTERVAL_SECONDS (fun _ => some "999") = some 999 ∧
      fetch_timeout_total (fun _ => some "999") = 12 ∧
      fetch_timeout_total (fun _ => some "999") ≠ 999 ∧
      semaphore_limit (fun _ => some "999") = 8 ∧
      semaphore_limit (fun _ => some "999") ≠ 999 := by
  exact ⟨by decide, rfl, by decide, rfl, by decide⟩

/-- C9 amended: only the scan interval is part of the environment
configuration surface (CHECK_INTERVAL_SECONDS, default 10, read once at
module import); the per-fetch timeout and the concurrency bound are the
hardcoded constants 12 and 8, identical under every environment. -/
theorem C9_amended_config_surface :
    (∀ env : Env, fetch_timeout_total env = 12 ∧ semaphore_limit env = 8) ∧
      (∃ env env' : Env,
        CHECK_INTERVAL_SECONDS env ≠ CHECK_INTERVAL_SECONDS env') := by
  refine ⟨fun env => ⟨rfl, rfl⟩,
    ⟨fun _ => none, fun _ => some "20", by decide⟩⟩

/-- Closed witness for C10: with wallets for users 7 and 9 present, user 9
attempting to toggle or delete the wallet of user 7 (id 1) gets the not-found
result and the table is unchanged. -/
theorem C10_owner_scoped_toggle_delete_witness :
    db_toggle_wallet
        [⟨1, 7, "a", "A", 1, none⟩, ⟨2, 9, "b", "B", 1, some 3⟩] 9 1 =
      (none, [⟨1, 7, "a", "A", 1, none⟩, ⟨2, 9, "b", "B", 1, some 3⟩]) ∧
    db_delete_wallet
        [⟨1, 7, "a", "A", 1, none⟩, ⟨2, 9, "b", "B", 1, some 3⟩] 9 1 =
      (false, [⟨1, 7, "a", "A", 1, none⟩, ⟨2, 9, "b", "B", 1, some 3⟩]) :=
  (C10_owner_scoped_toggle_delete
    [⟨1, 7, "a", "A", 1, none⟩, ⟨2, 9, "b", "B", 1, some 3⟩] 9 1).1
    (by decide)

end Sniffler

